import Mathlib

/-!
Verification of the rate-limited page-classification pipeline
(`article_analyzer.py`): the request throttle (`RateLimitHandler`),
the retrying classification calls (`get_categories`, `get_site_type`),
the tiered snippet extractor (`extract_snippet`), the link associator
(`associate_links`) and the per-page orchestrator (`analyze_url`).

External collaborators (the HTML parser, the URL library, the rendering
engine and the inference service) are modelled as explicit data:
markup is a parsed DOM tree, page/LLM interactions are oracles of
`Except`-valued outcomes, and time is an explicit rational-number clock
threaded through the otherwise-`async` operations, whose `sleep` calls
become returned durations.
-/

namespace ArticleAnalyzer

/-! ### Character-level string primitives

Python string operations (`in`, `lower`, `strip`, slicing, `len`) are
modelled on the character list underlying `String`, so that they reduce
by kernel computation. -/

/-- Character list of a string. -/
def chars (s : String) : List Char := s.data

/-- Length in characters (Python `len`). -/
def strLen (s : String) : ℕ := s.data.length

/-- First-`n`-characters slice (Python `s[:n]`). -/
def strTake (s : String) (n : ℕ) : String := String.mk (s.data.take n)

/-- Lower-casing (Python `str.lower`). -/
def strLower (s : String) : String := String.mk (s.data.map Char.toLower)

/-- Strip leading and trailing whitespace (Python `str.strip`). -/
def strTrim (s : String) : String :=
  String.mk (((s.data.dropWhile Char.isWhitespace).reverse.dropWhile
      Char.isWhitespace).reverse)

/-- `leadSeg hay needle` is true when `needle` is a leading segment of `hay`. -/
def leadSeg : List Char → List Char → Bool
  | _, [] => true
  | [], _ :: _ => false
  | a :: as, b :: bs => a == b && leadSeg as bs

/-- `subSearch needle hay`: does `needle` occur contiguously in `hay`? -/
def subSearch (needle : List Char) : List Char → Bool
  | [] => leadSeg [] needle
  | c :: t => leadSeg (c :: t) needle || subSearch needle t

/-- Python's `needle in hay` on strings. -/
def hasSub (hay needle : String) : Bool := subSearch needle.data hay.data

/-- `" ".join`-style joining with a separator (Python `sep.join(parts)`). -/
def joinSep (sep : String) : List String → String
  | [] => ""
  | [x] => x
  | x :: y :: rest => x ++ sep ++ joinSep sep (y :: rest)

/-- Collapse every maximal whitespace run to a single space; the flag
records whether the previous character belonged to a run already
emitted (Python `re.sub(r"\s+", " ", text)`). -/
def collapseRuns (inRun : Bool) : List Char → List Char
  | [] => []
  | c :: rest =>
    if c.isWhitespace then
      if inRun then collapseRuns true rest
      else ' ' :: collapseRuns true rest
    else c :: collapseRuns false rest

/-- Whitespace collapsing on strings. -/
def collapseWs (s : String) : String := String.mk (collapseRuns false s.data)

/-! ### The category table (`CATEGORY_LIST`, `CATEGORY_KEYWORDS`) -/

/-- The fixed category list of the source. -/
def CATEGORY_LIST : List String :=
  ["About Us", "Products & Services", "Leadership/Team",
   "Blog/News/Press Release", "Contact/Support",
   "Privacy/Legal", "Careers/Jobs", "Other"]

/-- The fixed keyword map of the source, as an association list. -/
def CATEGORY_KEYWORDS : List (String × List String) :=
  [("About Us", ["about us", "our story", "who we are"]),
   ("Products & Services", ["product", "service", "solution"]),
   ("Leadership/Team", ["our team", "leadership", "ceo", "founder"]),
   ("Blog/News/Press Release", ["blog", "news", "press"]),
   ("Contact/Support", ["contact", "support", "help", "reach"]),
   ("Privacy/Legal", ["privacy", "terms", "policy"]),
   ("Careers/Jobs", ["career", "job", "hiring"]),
   ("Other", [])]

/-- `CATEGORY_KEYWORDS.get(category, [])` of the source. -/
def kwLookup (category : String) : List String :=
  (CATEGORY_KEYWORDS.lookup category).getD []

/-- `any(kw in hay for kw in kws)` of the source. -/
def anyKw (hay : String) (kws : List String) : Bool :=
  kws.any (fun kw => hasSub hay kw)

/-! ### The DOM model

`BeautifulSoup` is an external parsing collaborator; markup is modelled
directly as the parsed tree. Elements carry a tag, a class list and
children; text nodes carry their string. -/

inductive Node where
  | text : String → Node
  | elem : String → List String → List Node → Node

mutual
/-- The stripped, non-empty text fragments of a subtree, in document
order (the pieces `get_text(" ", strip=True)` joins). -/
def textFrags : Node → List String
  | .text s => let t := strTrim s; if t.data.isEmpty then [] else [t]
  | .elem _ _ cs => textFragsList cs
def textFragsList : List Node → List String
  | [] => []
  | c :: cs => textFrags c ++ textFragsList cs
end

/-- `node.get_text(" ", strip=True)` of BeautifulSoup. -/
def getText (n : Node) : String := joinSep " " (textFrags n)

mutual
/-- All nodes of a subtree in document (preorder) order — the order in
which BeautifulSoup's `find_all` / `find_all_next` traverse the tree. -/
def flatten : Node → List Node
  | .text s => [.text s]
  | .elem t c cs => .elem t c cs :: flattenList cs
def flattenList : List Node → List Node
  | [] => []
  | n :: ns => flatten n ++ flattenList ns
end

/-- Does the node have one of the given element tags? -/
def hasTag (tags : List String) : Node → Bool
  | .text _ => false
  | .elem t _ _ => tags.contains t

/-- Is the node a `div` carrying the given class? -/
def isDivWithClass (cls : String) : Node → Bool
  | .text _ => false
  | .elem t cs _ => t == "div" && cs.contains cls

mutual
/-- `el.decompose()` for every element with a tag in `bad`: the tree with
those subtrees removed (`None` when the root itself is removed). -/
def stripTags (bad : List String) : Node → Option Node
  | .text s => some (.text s)
  | .elem t c cs =>
    if bad.contains t then none else some (.elem t c (stripTagsList bad cs))
def stripTagsList (bad : List String) : List Node → List Node
  | [] => []
  | n :: ns =>
    match stripTags bad n with
    | some m => m :: stripTagsList bad ns
    | none => stripTagsList bad ns
end

/-! ### The URL model

`urllib.parse.urlparse` / `urljoin` are external collaborators; they are
modelled for the generic-URI cases the analyzer exercises: scheme
splitting, `//netloc` extraction, and resolution of absolute references
(which pass through unchanged), network-path, absolute-path and relative
references. -/

structure UrlParts where
  scheme : String
  netloc : String
  path : String
deriving DecidableEq

/-- Is `s` a syntactically valid URI scheme (letter first, then
letters/digits/`+`/`-`/`.`)? -/
def validScheme (s : String) : Bool :=
  match s.data with
  | [] => false
  | c :: rest =>
    c.isAlpha && rest.all (fun d => d.isAlphanum || d == '+' || d == '-' || d == '.')

/-- Index of the first occurrence of a character. -/
def firstIdx (c : Char) : List Char → Option ℕ
  | [] => none
  | x :: xs => if x == c then some 0 else (firstIdx c xs).map (· + 1)

/-- Split `scheme:rest` when the part before the first `:` is a valid
scheme (Python lowercases the scheme). -/
def splitScheme (u : String) : Option (String × String) :=
  match firstIdx ':' u.data with
  | none => none
  | some i =>
    let before := String.mk (u.data.take i)
    if validScheme before then
      some (strLower before, String.mk (u.data.drop (i + 1)))
    else none

/-- Model of `urllib.parse.urlparse` restricted to scheme, netloc, path. -/
def urlparse (u : String) : UrlParts :=
  let (scheme, rest) :=
    match splitScheme u with
    | some p => p
    | none => ("", u)
  match rest.data with
  | '/' :: '/' :: r =>
    let netloc := r.takeWhile (fun c => !(c == '/' || c == '?' || c == '#'))
    ⟨scheme, String.mk netloc, String.mk (r.drop netloc.length)⟩
  | _ => ⟨scheme, "", rest⟩

/-- The base path up to and including its last `/` (the prefix kept when
resolving a relative reference). -/
def dirPart (p : String) : String :=
  match firstIdx '/' p.data.reverse with
  | some i => String.mk (p.data.take (p.data.length - i))
  | none => ""

/-- Model of `urllib.parse.urljoin` for the cases exercised here: an
empty reference yields the base; a reference with a scheme passes
through unchanged; `//`-, `/`- and relative references resolve against
the base's scheme, netloc and path. -/
def urljoin (base href : String) : String :=
  if href = "" then base
  else if (splitScheme href).isSome then href
  else
    let bp := urlparse base
    match href.data with
    | '/' :: '/' :: _ => bp.scheme ++ ":" ++ href
    | '/' :: _ => bp.scheme ++ "://" ++ bp.netloc ++ href
    | _ => bp.scheme ++ "://" ++ bp.netloc ++ dirPart bp.path ++ href

/-- `validate_url`: the scheme must be `http` or `https`. -/
def validate_url (url : String) : Bool :=
  (urlparse url).scheme == "http" || (urlparse url).scheme == "https"

/-! ### The request throttle (`RateLimitHandler`)

Time is an explicit rational clock (seconds); `await asyncio.sleep(d)`
becomes a returned duration `d`. `datetime.now()` becomes the `now`
argument — the source reads the clock once at the top of
`wait_if_needed` and uses that value in both phases. -/

structure RateLimitHandler where
  max_requests_per_minute : ℕ
  requests_timestamps : List ℚ
  quota_exceeded : Bool
  quota_reset_time : Option ℚ
  max_backoff : ℚ
  error_count : ℕ

/-- `RateLimitHandler(max_requests_per_minute, max_backoff_seconds)`. -/
def RateLimitHandler.init (maxPerMinute : ℕ := 10) (maxBackoff : ℚ := 60) :
    RateLimitHandler :=
  ⟨maxPerMinute, [], false, none, maxBackoff, 0⟩

/-- The window-pruning step of `wait_if_needed`: keep only timestamps
strictly newer than `now - 60`. -/
def pruneWindow (ts : List ℚ) (now : ℚ) : List ℚ :=
  ts.filter (fun t => now - 60 < t)

/-- Minimum of a timestamp list (`min(...)` of the source; the source
raises on an empty list, which is reachable only with a zero request
cap — this model returns `0` there). -/
def minTs : List ℚ → ℚ
  | [] => 0
  | x :: xs => xs.foldl min x

/-- `wait_if_needed`: returns the cooldown sleep, the window sleep, and
the updated state. -/
def wait_if_needed (s : RateLimitHandler) (now : ℚ) :
    ℚ × ℚ × RateLimitHandler :=
  let (cSleep, s1) :=
    match s.quota_exceeded, s.quota_reset_time with
    | true, some r =>
      if now < r then (r - now, s)
      else ((0:ℚ), { s with quota_exceeded := false, quota_reset_time := none })
    | _, _ => ((0:ℚ), s)
  let ts := pruneWindow s1.requests_timestamps now
  let s2 := { s1 with requests_timestamps := ts }
  if s2.max_requests_per_minute ≤ ts.length then
    let wait := 60 - (now - minTs ts)
    if 0 < wait then (cSleep, wait, s2) else (cSleep, 0, s2)
  else (cSleep, 0, s2)

/-- `record_request`: append the current timestamp and reset the
transient-error counter (`reset_backoff`). -/
def record_request (s : RateLimitHandler) (now : ℚ) : RateLimitHandler :=
  { s with requests_timestamps := s.requests_timestamps ++ [now],
           error_count := 0 }

/-- `handle_quota_error(retry_delay_seconds=None)`: set the cooldown
flag and expiry to `now` plus the hint, or 3600s when the hint is
absent (or `0`, which Python's truthiness test treats like absent). -/
def handle_quota_error (s : RateLimitHandler) (now : ℚ)
    (retry_delay_seconds : Option ℚ := none) : RateLimitHandler :=
  let d := match retry_delay_seconds with
    | some h => if h = 0 then 3600 else h
    | none => 3600
  { s with quota_exceeded := true, quota_reset_time := some (now + d) }

/-- `delay_for` of the backoff policy: `min(2**error_count +
uniform(0, 1), max_backoff)`, with the jitter sample `u` explicit. -/
def delay_for (k : ℕ) (u : ℚ) (maxBackoff : ℚ) : ℚ :=
  min (2 ^ k + u) maxBackoff

/-- `backoff`: sleep `delay_for` of the current error count, then
increment the error count. Returns the slept duration. -/
def backoff (s : RateLimitHandler) (u : ℚ) : ℚ × RateLimitHandler :=
  (delay_for s.error_count u s.max_backoff,
   { s with error_count := s.error_count + 1 })

/-! ### The snippet extractor (`extract_snippet`) -/

/-- Tier 1 scan: walk the document-order node list to the first
`h1`/`h2`/`h3` whose text contains a keyword; return the nodes after it
(BeautifulSoup's `find_all_next` ground set), or `none` when no heading
matches. -/
def matchSplit (kws : List String) : List Node → Option (List Node)
  | [] => none
  | n :: rest =>
    if hasTag ["h1", "h2", "h3"] n && anyKw (strLower (getText n)) kws then
      some rest
    else matchSplit kws rest

/-- The tier-1 snippet for the nodes following a matched heading: the
texts of up to 3 subsequent `p`/`div` elements joined by spaces, cut to
500 characters. -/
def headingSnippet (rest : List Node) : String :=
  strTake (joinSep " " (((rest.filter (hasTag ["p", "div"])).take 3).map getText))
    500

/-- Tiers 2–4 body: the container's text when it contains a keyword. -/
def containerHit (o : Option Node) (kws : List String) : Option String :=
  match o with
  | some n => if anyKw (strLower (getText n)) kws then some (getText n) else none
  | none => none

/-- Tier 4: scan the conventional content-class names in priority order;
for each, the first `div` carrying that class is consulted, and a class
whose `div` does not match falls through to the next class. -/
def classFallback (flat : List Node) (kws : List String) :
    List String → String
  | [] => ""
  | cls :: more =>
    match containerHit (flat.find? (isDivWithClass cls)) kws with
    | some t => strTake t 500
    | none => classFallback flat kws more

/-- The conventional content-class list of the source. -/
def contentClasses : List String :=
  ["post-content", "entry-content", "article-body", "content"]

/-- `extract_snippet(html, category)`: tiered keyword search over the
parsed markup. -/
def extract_snippet (doc : Node) (category : String) : String :=
  let kws := kwLookup category
  let flat := flatten doc
  match matchSplit kws flat with
  | some rest => headingSnippet rest
  | none =>
    match containerHit (flat.find? (hasTag ["article"])) kws with
    | some t => strTake t 500
    | none =>
      match containerHit (flat.find? (hasTag ["main"])) kws with
      | some t => strTake t 500
      | none => classFallback flat kws contentClasses

/-! ### The link associator (`associate_links`)

The rendered page's `a[href]` anchors are the collaborator's data:
a list of `(href, visible_text)` pairs, or the enumeration failure the
source catches. The source lowercases the visible text at extraction
(`inner_text().lower()`) and the href in the match string. -/

/-- The in-order match candidates: non-empty hrefs resolved against the
base, kept when the resolved netloc is empty or equals the base's
netloc and `href.lower() + " " + text` contains a keyword. -/
def linkCandidates (base : String) (domain : String) (kws : List String) :
    List (String × String) → List String
  | [] => []
  | (href, txt) :: rest =>
    let tail := linkCandidates base domain kws rest
    if href = "" then tail
    else
      let abs_url := urljoin base href
      let p := urlparse abs_url
      if p.netloc ≠ "" ∧ p.netloc ≠ domain then tail
      else if anyKw (strLower href ++ " " ++ strLower txt) kws then
        abs_url :: tail
      else tail

/-- `list(dict.fromkeys(...))`: deduplicate keeping first occurrences. -/
def dedupFirst (seen : List String) : List String → List String
  | [] => []
  | x :: xs =>
    if x ∈ seen then dedupFirst seen xs else x :: dedupFirst (x :: seen) xs

/-- `associate_links(page, base_url, category)`: the candidate URLs,
deduplicated preserving first-seen order and truncated to 5; any anchor
enumeration failure yields the empty list. -/
def associate_links (anchors : Except String (List (String × String)))
    (base_url category : String) : List String :=
  match anchors with
  | .error _ => []
  | .ok as =>
    (dedupFirst []
      (linkCandidates base_url (urlparse base_url).netloc (kwLookup category)
        as)).take 5

/-! ### The classification calls (`get_categories`, `get_site_type`)

The inference collaborator is an oracle giving each attempt's outcome:
a raised error — a quota error distinguishable from a generic transient
one — or the free-text response. `json.loads` is an external decoding
collaborator: a function to the decoded shape, `none` when it raises.
An event trace records the calls, sleeps, successes and backoffs. -/

inductive LLMErr where
  | quota (retryDelay : Option ℚ)
  | transient (msg : String)

inductive Event where
  | slept (d : ℚ)
  | called (attempt : ℕ)
  | recorded
  | backedOff (d : ℚ)

/-- Number of inference calls in a trace. -/
def callCount (evs : List Event) : ℕ :=
  evs.countP fun e => match e with | .called _ => true | _ => false

/-- Number of backoff invocations in a trace. -/
def backoffCount (evs : List Event) : ℕ :=
  evs.countP fun e => match e with | .backedOff _ => true | _ => false

/-- Outcome of a classification call: the value, the throttle state, the
clock after all sleeps, and the event trace. -/
structure LLMRun (α : Type) where
  value : α
  state : RateLimitHandler
  now : ℚ
  events : List Event

/-- `re.search(r"\[.*\]", text, re.DOTALL)` (and its brace analogue):
the span from the first opening character to the last closing one, when
the latter comes after the former. -/
def extractSpan (openC closeC : Char) (s : String) : Option String :=
  match firstIdx openC s.data, firstIdx closeC s.data.reverse with
  | some i, some revJ =>
    let j := s.data.length - 1 - revJ
    if i < j then some (String.mk ((s.data.drop i).take (j - i + 1))) else none
  | _, _ => none

/-- A decoded category entry: a JSON object with string fields, as an
association list (`{"category_name": ..., "text": ...}`). -/
abbrev CatEntry := List (String × String)

/-- The retry loop of `get_categories`: `for attempt in range(3)` with
`fuel` iterations left and `attempt` the 0-based index. On a raised
call error: back off and retry. On a response: record the request, then
return the decoded first `[...]` span — the empty list immediately when
no span exists — backing off and retrying only when decoding raises. -/
def get_categories_go (dec : String → Option (List CatEntry))
    (resp : ℕ → Except LLMErr String) (jit : ℕ → ℚ) :
    ℕ → ℕ → RateLimitHandler → ℚ → LLMRun (List CatEntry)
  | 0, _, s, now => ⟨[], s, now, []⟩
  | fuel + 1, attempt, s, now =>
    let ww := wait_if_needed s now
    let s1 := ww.2.2
    let now1 := now + ww.1 + ww.2.1
    let pre := [Event.slept ww.1, Event.slept ww.2.1, Event.called attempt]
    match resp attempt with
    | .error _ =>
      let bo := backoff s1 (jit attempt)
      let rec1 := get_categories_go dec resp jit fuel (attempt + 1) bo.2
        (now1 + bo.1)
      ⟨rec1.value, rec1.state, rec1.now,
        pre ++ [Event.backedOff bo.1] ++ rec1.events⟩
    | .ok rtext =>
      let s2 := record_request s1 now1
      match extractSpan '[' ']' (strTrim rtext) with
      | none => ⟨[], s2, now1, pre ++ [Event.recorded]⟩
      | some frag =>
        match dec frag with
        | some cats => ⟨cats, s2, now1, pre ++ [Event.recorded]⟩
        | none =>
          let bo := backoff s2 (jit attempt)
          let rec1 := get_categories_go dec resp jit fuel (attempt + 1) bo.2
            (now1 + bo.1)
          ⟨rec1.value, rec1.state, rec1.now,
            pre ++ [Event.recorded, Event.backedOff bo.1] ++ rec1.events⟩

/-- `get_categories(text)`: up to 3 attempts, degrading to `[]`. -/
def get_categories (dec : String → Option (List CatEntry))
    (resp : ℕ → Except LLMErr String) (jit : ℕ → ℚ)
    (s : RateLimitHandler) (now : ℚ) : LLMRun (List CatEntry) :=
  get_categories_go dec resp jit 3 0 s now

/-- Left and right braces, by code point (the regex `\{.*\}`). -/
def lbrace : Char := Char.ofNat 123

def rbrace : Char := Char.ofNat 125

/-- The retry loop of `get_site_type`, identical in shape to
`get_categories_go` but scanning for a `\x7b...\x7d` span, decoding an
object and reading its `site_type` field with default `"other"`. -/
def get_site_type_go (dec : String → Option (List (String × String)))
    (resp : ℕ → Except LLMErr String) (jit : ℕ → ℚ) :
    ℕ → ℕ → RateLimitHandler → ℚ → LLMRun String
  | 0, _, s, now => ⟨"other", s, now, []⟩
  | fuel + 1, attempt, s, now =>
    let ww := wait_if_needed s now
    let s1 := ww.2.2
    let now1 := now + ww.1 + ww.2.1
    let pre := [Event.slept ww.1, Event.slept ww.2.1, Event.called attempt]
    match resp attempt with
    | .error _ =>
      let bo := backoff s1 (jit attempt)
      let rec1 := get_site_type_go dec resp jit fuel (attempt + 1) bo.2
        (now1 + bo.1)
      ⟨rec1.value, rec1.state, rec1.now,
        pre ++ [Event.backedOff bo.1] ++ rec1.events⟩
    | .ok rtext =>
      let s2 := record_request s1 now1
      match extractSpan lbrace rbrace (strTrim rtext) with
      | none => ⟨"other", s2, now1, pre ++ [Event.recorded]⟩
      | some frag =>
        match dec frag with
        | some obj =>
          ⟨(obj.lookup "site_type").getD "other", s2, now1,
            pre ++ [Event.recorded]⟩
        | none =>
          let bo := backoff s2 (jit attempt)
          let rec1 := get_site_type_go dec resp jit fuel (attempt + 1) bo.2
            (now1 + bo.1)
          ⟨rec1.value, rec1.state, rec1.now,
            pre ++ [Event.recorded, Event.backedOff bo.1] ++ rec1.events⟩

/-- `get_site_type(text)`: up to 3 attempts, degrading to `"other"`. -/
def get_site_type (dec : String → Option (List (String × String)))
    (resp : ℕ → Except LLMErr String) (jit : ℕ → ℚ)
    (s : RateLimitHandler) (now : ℚ) : LLMRun String :=
  get_site_type_go dec resp jit 3 0 s now

/-! ### The orchestrator (`analyze_url`) -/

/-- The result record shape of the source
(`URL / site_type / extracted_web_content / content / errors`); a
content entry is a category name with its snippet and links. -/
structure PageResult where
  url : String
  site_type : String
  extracted_web_content : String
  content : List (String × String × List String)
  errors : Option String

/-- The error record of the source: `site_type = "other"`, empty text
and content, the failure's description in `errors`. -/
def errRecord (url msg : String) : PageResult :=
  ⟨url, "other", "", [], some msg⟩

/-- The collaborators of one `analyze_url` run: the rendering engine's
outcomes (page acquisition, navigation, final URL, markup, anchors),
the inference oracles and the decoding collaborators. -/
structure Env where
  newPage : Except String Unit
  gotoResult : Except String Unit
  finalUrl : String
  html : Except String Node
  anchors : Except String (List (String × String))
  catDec : String → Option (List CatEntry)
  catResp : ℕ → Except LLMErr String
  catJit : ℕ → ℚ
  siteDec : String → Option (List (String × String))
  siteResp : ℕ → Except LLMErr String
  siteJit : ℕ → ℚ

/-- The cleaning stage: decompose `script`/`style`/`nav`/`footer`/
`aside` from a copy, take its text and collapse whitespace runs. -/
def cleanText (doc : Node) : String :=
  collapseWs (joinSep " "
    (textFragsList (stripTagsList ["script", "style", "nav", "footer", "aside"]
      [doc])))

/-- The assembly loop: for each category entry, read `category_name`
(a missing key raises, as Python's `cat["category_name"]` does), build
the snippet and links, and keep the entry only when one is non-empty. -/
def assemble (doc : Node) (anchors : Except String (List (String × String)))
    (base : String) :
    List CatEntry → Except String (List (String × String × List String))
  | [] => .ok []
  | cat :: rest =>
    match cat.lookup "category_name" with
    | none => .error "KeyError: category_name"
    | some name =>
      let snippet := extract_snippet doc name
      let links := associate_links anchors base name
      match assemble doc anchors base rest with
      | .error e => .error e
      | .ok tail =>
        .ok (if snippet ≠ "" ∨ links ≠ [] then (name, snippet, links) :: tail
          else tail)

/-- Outcome of one `analyze_url` run: the record, the throttle state and
clock after it, and whether a page handle was opened and closed. -/
structure PageRun where
  result : PageResult
  state : RateLimitHandler
  now : ℚ
  pageOpened : Bool
  pageClosed : Bool

/-- `analyze_url(url)`: validate, fetch, clean, classify, assemble;
every collaborator failure is caught at this boundary and becomes the
error record. The page handle is closed exactly where the source calls
`page.close()` — on the success path only. -/
def analyze_url (env : Env) (url : String) (s : RateLimitHandler) (now : ℚ) :
    PageRun :=
  if !validate_url url then ⟨errRecord url "Invalid URL", s, now, false, false⟩
  else
    match env.newPage with
    | .error e => ⟨errRecord url e, s, now, false, false⟩
    | .ok _ =>
      match env.gotoResult with
      | .error e => ⟨errRecord url e, s, now, true, false⟩
      | .ok _ =>
        match env.html with
        | .error e => ⟨errRecord url e, s, now + 2, true, false⟩
        | .ok doc =>
          let text := cleanText doc
          let cr := get_categories env.catDec env.catResp env.catJit s (now + 2)
          let st := get_site_type env.siteDec env.siteResp env.siteJit
            cr.state cr.now
          match assemble doc env.anchors env.finalUrl cr.value with
          | .error e => ⟨errRecord url e, st.state, st.now, true, false⟩
          | .ok content =>
            ⟨⟨env.finalUrl, st.value, text, content, none⟩, st.state, st.now,
              true, true⟩

/-! ### Helper lemmas -/

/-- Membership in the pruned window bounds the timestamp below. -/
theorem mem_pruneWindow {ts : List ℚ} {now t : ℚ}
    (h : t ∈ pruneWindow ts now) : t ∈ ts ∧ now - 60 < t := by
  have h' := List.mem_filter.mp h
  exact ⟨h'.1, by simpa using h'.2⟩

theorem minTs_mem : ∀ (l : List ℚ), l ≠ [] → minTs l ∈ l := by
  have aux : ∀ (xs : List ℚ) (x : ℚ),
      xs.foldl min x = x ∨ xs.foldl min x ∈ xs := by
    intro xs
    induction xs with
    | nil => intro x; exact Or.inl rfl
    | cons y ys ih =>
      intro x
      rcases ih (min x y) with h | h
      · rcases min_choice x y with hm | hm
        · exact Or.inl (by rw [List.foldl_cons, h, hm])
        · exact Or.inr (by rw [List.foldl_cons, h, hm]; exact List.mem_cons_self _ _)
      · exact Or.inr (List.mem_cons_of_mem _ h)
  intro l hl
  match l with
  | x :: xs =>
    rcases aux xs x with h | h
    · simp only [minTs, h]
      exact List.mem_cons_self _ _
    · exact List.mem_cons_of_mem _ (by simpa [minTs] using h)

theorem minTs_le : ∀ (l : List ℚ), ∀ x ∈ l, minTs l ≤ x := by
  have aux : ∀ (xs : List ℚ) (a : ℚ),
      xs.foldl min a ≤ a ∧ ∀ x ∈ xs, xs.foldl min a ≤ x := by
    intro xs
    induction xs with
    | nil => intro a; exact ⟨le_refl a, by simp⟩
    | cons y ys ih =>
      intro a
      have h := ih (min a y)
      refine ⟨h.1.trans (min_le_left a y), ?_⟩
      intro x hx
      rcases List.mem_cons.mp hx with rfl | hx
      · exact h.1.trans (min_le_right a x)
      · exact h.2 x hx
  intro l x hx
  match l, hx with
  | a :: as, hx =>
    rcases List.mem_cons.mp hx with rfl | hx
    · exact (aux as x).1
    · exact (aux as a).2 x hx

theorem string_eq_empty_iff {s : String} : s = "" ↔ s.data = [] := by
  cases s with
  | mk d =>
    constructor
    · intro h
      rw [h]
    · intro h
      simp only at h
      rw [h]

theorem strLen_strTake (s : String) (n : ℕ) : strLen (strTake s n) ≤ n := by
  simp only [strLen, strTake, List.length_take]
  omega

theorem strTake_ne_empty {s : String} {n : ℕ} (hs : s ≠ "") (hn : 0 < n) :
    strTake s n ≠ "" := by
  intro h
  have hd : s.data.take n = [] := string_eq_empty_iff.mp h
  rcases List.take_eq_nil_iff.mp hd with h' | h'
  · exact absurd h' (Nat.pos_iff_ne_zero.mp hn)
  · exact hs (string_eq_empty_iff.mpr h')

theorem subSearch_hay_ne_nil {needle hay : List Char}
    (h : subSearch needle hay = true) (hn : needle ≠ []) : hay ≠ [] := by
  cases hay with
  | nil =>
    cases needle with
    | nil => exact absurd rfl hn
    | cons c cs => simp [subSearch, leadSeg] at h
  | cons c t => exact List.cons_ne_nil c t

theorem anyKw_source_ne_empty {t : String} {kws : List String}
    (h : anyKw (strLower t) kws = true) (hk : ∀ kw ∈ kws, kw ≠ "") :
    t ≠ "" := by
  rcases List.any_eq_true.mp h with ⟨kw, hmem, hsub⟩
  have hkwd : kw.data ≠ [] := fun hd => hk kw hmem (string_eq_empty_iff.mpr hd)
  have hay := subSearch_hay_ne_nil hsub hkwd
  intro hts
  apply hay
  simp [strLower, string_eq_empty_iff.mp hts]

theorem lookup_mem_values :
    ∀ (l : List (String × List String)) (k : String) (v : List String),
      l.lookup k = some v → v ∈ l.map Prod.snd := by
  intro l
  induction l with
  | nil => intro k v h; simp [List.lookup] at h
  | cons p rest ih =>
    intro k v h
    match p with
    | (a, b) =>
      cases hab : (k == a) <;> simp [List.lookup, hab] at h
      · exact List.mem_cons_of_mem _ (ih k v h)
      · exact h ▸ List.mem_cons_self _ _

/-- Every keyword in the fixed category table is non-empty. -/
theorem kwLookup_ne_empty (cat kw : String) (h : kw ∈ kwLookup cat) :
    kw ≠ "" := by
  unfold kwLookup at h
  cases hl : CATEGORY_KEYWORDS.lookup cat with
  | none => rw [hl] at h; simp at h
  | some l =>
    rw [hl] at h
    simp only [Option.getD_some] at h
    have hv := lookup_mem_values _ _ _ hl
    have hall : ∀ ws ∈ CATEGORY_KEYWORDS.map Prod.snd, ∀ w ∈ ws, w ≠ "" := by
      decide
    exact hall _ hv _ h

theorem containerHit_elim {o : Option Node} {kws : List String} {t : String}
    (h : containerHit o kws = some t) :
    anyKw (strLower t) kws = true := by
  cases o with
  | none => simp [containerHit] at h
  | some n =>
    by_cases ha : anyKw (strLower (getText n)) kws = true
    · simp only [containerHit, ha, if_true, Option.some.injEq] at h
      rw [← h]
      exact ha
    · simp [containerHit, ha] at h

theorem containerHit_take_ne {o : Option Node} {kws : List String} {t : String}
    (h : containerHit o kws = some t) (hk : ∀ kw ∈ kws, kw ≠ "") :
    strTake t 500 ≠ "" :=
  strTake_ne_empty (anyKw_source_ne_empty (containerHit_elim h) hk)
    (by norm_num)

theorem classFallback_len (flat : List Node) (kws : List String) :
    ∀ L, strLen (classFallback flat kws L) ≤ 500 := by
  intro L
  induction L with
  | nil => simp [classFallback, strLen]
  | cons c cs ih =>
    cases hc : containerHit (flat.find? (isDivWithClass c)) kws with
    | some t => simp only [classFallback, hc]; exact strLen_strTake _ _
    | none => simpa only [classFallback, hc] using ih

theorem classFallback_ne {flat : List Node} {kws : List String}
    (hk : ∀ kw ∈ kws, kw ≠ "") :
    ∀ L, (∃ cls ∈ L,
        containerHit (flat.find? (isDivWithClass cls)) kws ≠ none) →
      classFallback flat kws L ≠ "" := by
  intro L
  induction L with
  | nil => rintro ⟨cls, hmem, _⟩; simp at hmem
  | cons c cs ih =>
    rintro ⟨cls, hmem, hne⟩
    cases hc : containerHit (flat.find? (isDivWithClass c)) kws with
    | some t =>
      simp only [classFallback, hc]
      exact containerHit_take_ne hc hk
    | none =>
      simp only [classFallback, hc]
      rcases List.mem_cons.mp hmem with rfl | hmem'
      · exact absurd hc hne
      · exact ih ⟨cls, hmem', hne⟩

/-! ### Claim C6 — snippet extraction (corrected) -/

/-- **C6 counterexample.** A markup whose only `h1` heading's text
contains an `"About Us"` keyword, with no paragraph/div following:
tier 1 matches, yet `extract_snippet` returns the empty string. -/
theorem c6_counterexample :
    anyKw (strLower (getText (Node.elem "h1" [] [Node.text "about us"])))
      (kwLookup "About Us") = true ∧
    extract_snippet (Node.elem "h1" [] [Node.text "about us"]) "About Us"
      = "" := by
  decide

/-- **C6 amended.** `extract_snippet` always returns at most 500
characters; when no level-1–3 heading matches a keyword but the
article, main, or a conventional content-class container's text does,
the result is non-empty; but when the first matching heading has no
subsequent paragraph/div elements, the result is the empty string —
a tier-1 match does not guarantee a non-empty result. -/
theorem c6_snippet_amended (doc : Node) (cat : String) :
    strLen (extract_snippet doc cat) ≤ 500 ∧
    (matchSplit (kwLookup cat) (flatten doc) = none →
      (containerHit ((flatten doc).find? (hasTag ["article"]))
          (kwLookup cat) ≠ none ∨
       containerHit ((flatten doc).find? (hasTag ["main"]))
          (kwLookup cat) ≠ none ∨
       (∃ cls ∈ contentClasses,
         containerHit ((flatten doc).find? (isDivWithClass cls))
           (kwLookup cat) ≠ none)) →
      extract_snippet doc cat ≠ "") ∧
    (∀ rest, matchSplit (kwLookup cat) (flatten doc) = some rest →
      rest.filter (hasTag ["p", "div"]) = [] →
      extract_snippet doc cat = "") := by
  have hk : ∀ kw ∈ kwLookup cat, kw ≠ "" := fun kw hkw =>
    kwLookup_ne_empty cat kw hkw
  refine ⟨?_, ?_, ?_⟩
  · cases hms : matchSplit (kwLookup cat) (flatten doc) with
    | some rest =>
      simp only [extract_snippet, hms, headingSnippet]
      exact strLen_strTake _ _
    | none =>
      simp only [extract_snippet, hms]
      cases h2 : containerHit ((flatten doc).find? (hasTag ["article"]))
          (kwLookup cat) with
      | some t => simp only [h2]; exact strLen_strTake _ _
      | none =>
        simp only [h2]
        cases h3 : containerHit ((flatten doc).find? (hasTag ["main"]))
            (kwLookup cat) with
        | some t => simp only [h3]; exact strLen_strTake _ _
        | none => simp only [h3]; exact classFallback_len _ _ _
  · intro hms hdisj
    simp only [extract_snippet, hms]
    cases h2 : containerHit ((flatten doc).find? (hasTag ["article"]))
        (kwLookup cat) with
    | some t =>
      simp only [h2]
      exact containerHit_take_ne h2 hk
    | none =>
      simp only [h2]
      cases h3 : containerHit ((flatten doc).find? (hasTag ["main"]))
          (kwLookup cat) with
      | some t =>
        simp only [h3]
        exact containerHit_take_ne h3 hk
      | none =>
        simp only [h3]
        rcases hdisj with h | h | h
        · exact absurd h2 h
        · exact absurd h3 h
        · exact classFallback_ne hk _ h
  · intro rest hms hfilter
    simp only [extract_snippet, hms, headingSnippet, hfilter]
    rfl

/-- Witness for the amended C6: an `article` container whose text
matches an `"About Us"` keyword with no heading present yields a
non-empty snippet of at most 500 characters. -/
theorem c6_snippet_amended_witness :
    strLen (extract_snippet
      (Node.elem "article" [] [Node.text "our story begins"]) "About Us")
      ≤ 500 ∧
    extract_snippet (Node.elem "article" [] [Node.text "our story begins"])
      "About Us" ≠ "" ∧
    extract_snippet (Node.elem "h1" [] [Node.text "about us"]) "About Us"
      = "" := by
  have h1 := c6_snippet_amended
    (Node.elem "article" [] [Node.text "our story begins"]) "About Us"
  have h2 := c6_snippet_amended
    (Node.elem "h1" [] [Node.text "about us"]) "About Us"
  exact ⟨h1.1, h1.2.1 rfl (Or.inl (by decide)), h2.2.2 _ rfl rfl⟩

theorem dedupFirst_sublist : ∀ (l : List String) (seen : List String),
    (dedupFirst seen l).Sublist l := by
  intro l
  induction l with
  | nil => intro seen; simp [dedupFirst]
  | cons x xs ih =>
    intro seen
    by_cases hx : x ∈ seen
    · simp only [dedupFirst, if_pos hx]
      exact (ih seen).cons x
    · simp only [dedupFirst, if_neg hx]
      exact (ih (x :: seen)).cons₂ x

theorem mem_dedupFirst_not_seen : ∀ (l seen : List String) (x : String),
    x ∈ dedupFirst seen l → x ∉ seen := by
  intro l
  induction l with
  | nil => intro seen x hx; simp [dedupFirst] at hx
  | cons y ys ih =>
    intro seen x hx
    by_cases hy : y ∈ seen
    · rw [dedupFirst, if_pos hy] at hx
      exact ih seen x hx
    · rw [dedupFirst, if_neg hy] at hx
      rcases List.mem_cons.mp hx with rfl | hx'
      · exact hy
      · intro hs
        exact ih (y :: seen) x hx' (List.mem_cons_of_mem y hs)

theorem dedupFirst_nodup : ∀ (l seen : List String),
    (dedupFirst seen l).Nodup := by
  intro l
  induction l with
  | nil => intro seen; simp [dedupFirst]
  | cons y ys ih =>
    intro seen
    by_cases hy : y ∈ seen
    · rw [dedupFirst, if_pos hy]
      exact ih seen
    · rw [dedupFirst, if_neg hy]
      refine List.nodup_cons.mpr ⟨?_, ih (y :: seen)⟩
      intro hmem
      exact mem_dedupFirst_not_seen ys (y :: seen) y hmem
        (List.mem_cons_self y seen)

theorem mem_linkCandidates {base domain : String} {kws : List String} :
    ∀ (as : List (String × String)) (u : String),
      u ∈ linkCandidates base domain kws as →
      (urlparse u).netloc = "" ∨ (urlparse u).netloc = domain := by
  intro as
  induction as with
  | nil => intro u hu; simp [linkCandidates] at hu
  | cons a rest ih =>
    intro u hu
    match a with
    | (href, txt) =>
      by_cases h0 : href = ""
      · rw [linkCandidates, if_pos h0] at hu
        exact ih u hu
      · rw [linkCandidates, if_neg h0] at hu
        by_cases hg : (urlparse (urljoin base href)).netloc ≠ "" ∧
            (urlparse (urljoin base href)).netloc ≠ domain
        · rw [if_pos hg] at hu
          exact ih u hu
        · rw [if_neg hg] at hu
          by_cases hkw : anyKw (strLower href ++ " " ++ strLower txt) kws
            = true
          · rw [if_pos hkw] at hu
            rcases List.mem_cons.mp hu with rfl | hu'
            · push_neg at hg
              by_cases hz : (urlparse (urljoin base href)).netloc = ""
              · exact Or.inl hz
              · exact Or.inr (hg hz)
            · exact ih u hu'
          · rw [if_neg hkw] at hu
            exact ih u hu

/-! ### Claim C7 — link association (corrected) -/

/-- **C7 counterexample.** A `mailto:` anchor whose text matches a
`"Contact/Support"` keyword is returned by `associate_links` even
though its URL has no host: the source's filter skips only URLs with a
*non-empty* netloc differing from the base's, so the returned URL's
host (empty) differs from the base URL's host `www.x.com`. -/
theorem c7_counterexample :
    associate_links (.ok [("mailto:contact@x.com", "Email Us")])
      "http://www.x.com/" "Contact/Support" = ["mailto:contact@x.com"] ∧
    (urlparse "mailto:contact@x.com").netloc = "" ∧
    (urlparse "http://www.x.com/").netloc = "www.x.com" := by
  decide

/-- **C7 amended.** `associate_links` returns at most 5 URLs with no
duplicates, in first-seen order (an order-preserving sublist of the
in-order match candidates), and every returned URL's host equals the
base URL's host **or is empty** — URLs with no network location (such
as `mailto:`) pass the source's host filter. -/
theorem c7_links_amended (anchors : Except String (List (String × String)))
    (base cat : String) :
    (associate_links anchors base cat).length ≤ 5 ∧
    (associate_links anchors base cat).Nodup ∧
    (∀ u ∈ associate_links anchors base cat,
      (urlparse u).netloc = (urlparse base).netloc ∨
      (urlparse u).netloc = "") ∧
    (∀ as, anchors = .ok as →
      (associate_links anchors base cat).Sublist
        (linkCandidates base (urlparse base).netloc (kwLookup cat) as)) := by
  cases anchors with
  | error e =>
    refine ⟨by simp [associate_links], by simp [associate_links],
      by simp [associate_links], ?_⟩
    intro as h
    cases h
  | ok as =>
    refine ⟨?_, ?_, ?_, ?_⟩
    · simp only [associate_links]
      exact (List.length_take _ _).le.trans (min_le_left _ _)
    · simp only [associate_links]
      exact List.Nodup.sublist (List.take_sublist _ _) (dedupFirst_nodup _ [])
    · intro u hu
      simp only [associate_links] at hu
      have hu' : u ∈ dedupFirst []
          (linkCandidates base (urlparse base).netloc (kwLookup cat) as) :=
        List.mem_of_mem_take hu
      have hcand := (dedupFirst_sublist _ []).mem hu'
      rcases mem_linkCandidates as u hcand with h | h
      · exact Or.inr h
      · exact Or.inl h
    · intro as' h
      injection h with h
      subst h
      simp only [associate_links]
      exact (List.take_sublist _ _).trans (dedupFirst_sublist _ [])

/-- Witness for the amended C7 at the `mailto:` input. -/
theorem c7_links_amended_witness :
    (associate_links (.ok [("mailto:contact@x.com", "Email Us")])
      "http://www.x.com/" "Contact/Support").length ≤ 5 ∧
    (associate_links (.ok [("mailto:contact@x.com", "Email Us")])
      "http://www.x.com/" "Contact/Support").Nodup ∧
    (associate_links (.ok [("mailto:contact@x.com", "Email Us")])
      "http://www.x.com/" "Contact/Support").Sublist
      (linkCandidates "http://www.x.com/"
        (urlparse "http://www.x.com/").netloc (kwLookup "Contact/Support")
        [("mailto:contact@x.com", "Email Us")]) := by
  have h := c7_links_amended (.ok [("mailto:contact@x.com", "Email Us")])
    "http://www.x.com/" "Contact/Support"
  exact ⟨h.1, h.2.1, h.2.2.2 _ rfl⟩

/-! ### Claim C2 — the per-page result invariant -/

/-- **C2.** `analyze_url` is total on its modelled collaborator
outcomes (every failure is caught at the orchestrator boundary and no
exception escapes) and always yields exactly one well-formed record:
either the error field is `none`, or it holds the failure's description
while the other fields hold the empty defaults (site type `"other"`,
empty extracted text, empty content list) — error and success are
mutually exclusive. -/
theorem c2_result_invariant (env : Env) (url : String)
    (s : RateLimitHandler) (now : ℚ) :
    (analyze_url env url s now).result.errors = none ∨
    ((analyze_url env url s now).result.errors ≠ none ∧
     (analyze_url env url s now).result.site_type = "other" ∧
     (analyze_url env url s now).result.extracted_web_content = "" ∧
     (analyze_url env url s now).result.content = []) := by
  cases hv : validate_url url with
  | false => simp [analyze_url, hv, errRecord]
  | true =>
    cases hnp : env.newPage with
    | error e => simp [analyze_url, hv, hnp, errRecord]
    | ok u =>
      cases hg : env.gotoResult with
      | error e => simp [analyze_url, hv, hnp, hg, errRecord]
      | ok u2 =>
        cases hh : env.html with
        | error e => simp [analyze_url, hv, hnp, hg, hh, errRecord]
        | ok doc =>
          cases hasm : assemble doc env.anchors env.finalUrl
              (get_categories env.catDec env.catResp env.catJit s
                (now + 2)).value with
          | error e => simp [analyze_url, hv, hnp, hg, hh, hasm, errRecord]
          | ok content => simp [analyze_url, hv, hnp, hg, hh, hasm]

/-- Witness for C2 at a concrete run: an `ftp://` URL is rejected and
the record carries the error with empty defaults. -/
theorem c2_result_invariant_witness :
    (analyze_url
      { newPage := .error "closed", gotoResult := .error "closed",
        finalUrl := "", html := .error "closed", anchors := .error "closed",
        catDec := fun _ => none, catResp := fun _ => .error (.transient "e"),
        catJit := fun _ => 0, siteDec := fun _ => none,
        siteResp := fun _ => .error (.transient "e"), siteJit := fun _ => 0 }
      "ftp://x" (RateLimitHandler.init 5 60) 0).result.errors = none ∨
    ((analyze_url
      { newPage := .error "closed", gotoResult := .error "closed",
        finalUrl := "", html := .error "closed", anchors := .error "closed",
        catDec := fun _ => none, catResp := fun _ => .error (.transient "e"),
        catJit := fun _ => 0, siteDec := fun _ => none,
        siteResp := fun _ => .error (.transient "e"), siteJit := fun _ => 0 }
      "ftp://x" (RateLimitHandler.init 5 60) 0).result.errors ≠ none ∧
     (analyze_url
      { newPage := .error "closed", gotoResult := .error "closed",
        finalUrl := "", html := .error "closed", anchors := .error "closed",
        catDec := fun _ => none, catResp := fun _ => .error (.transient "e"),
        catJit := fun _ => 0, siteDec := fun _ => none,
        siteResp := fun _ => .error (.transient "e"), siteJit := fun _ => 0 }
      "ftp://x" (RateLimitHandler.init 5 60) 0).result.site_type = "other" ∧
     (analyze_url
      { newPage := .error "closed", gotoResult := .error "closed",
        finalUrl := "", html := .error "closed", anchors := .error "closed",
        catDec := fun _ => none, catResp := fun _ => .error (.transient "e"),
        catJit := fun _ => 0, siteDec := fun _ => none,
        siteResp := fun _ => .error (.transient "e"), siteJit := fun _ => 0 }
      "ftp://x" (RateLimitHandler.init 5 60) 0).result.extracted_web_content
        = "" ∧
     (analyze_url
      { newPage := .error "closed", gotoResult := .error "closed",
        finalUrl := "", html := .error "closed", anchors := .error "closed",
        catDec := fun _ => none, catResp := fun _ => .error (.transient "e"),
        catJit := fun _ => 0, siteDec := fun _ => none,
        siteResp := fun _ => .error (.transient "e"), siteJit := fun _ => 0 }
      "ftp://x" (RateLimitHandler.init 5 60) 0).result.content = []) :=
  c2_result_invariant _ "ftp://x" (RateLimitHandler.init 5 60) 0

/-! ### Claim C8 — page-handle lifecycle (code bug) -/

/-- **C8.** The page handle is *not* closed on every path: when
`page.goto` raises (a navigation timeout) after the handle was
acquired, `analyze_url` returns the error record with the handle still
open — the source calls `page.close()` only on the success path, with
no `finally`. On the success path the handle is closed. -/
theorem c8_page_not_closed_on_error :
    (analyze_url
      { newPage := .ok (), gotoResult := .error "Timeout 30000ms exceeded",
        finalUrl := "http://example.com/", html := .error "n/a",
        anchors := .ok [], catDec := fun _ => none,
        catResp := fun _ => .error (.transient "e"), catJit := fun _ => 0,
        siteDec := fun _ => none,
        siteResp := fun _ => .error (.transient "e"), siteJit := fun _ => 0 }
      "http://example.com" (RateLimitHandler.init 5 60) 0).pageOpened
      = true ∧
    (analyze_url
      { newPage := .ok (), gotoResult := .error "Timeout 30000ms exceeded",
        finalUrl := "http://example.com/", html := .error "n/a",
        anchors := .ok [], catDec := fun _ => none,
        catResp := fun _ => .error (.transient "e"), catJit := fun _ => 0,
        siteDec := fun _ => none,
        siteResp := fun _ => .error (.transient "e"), siteJit := fun _ => 0 }
      "http://example.com" (RateLimitHandler.init 5 60) 0).pageClosed
      = false ∧
    (analyze_url
      { newPage := .ok (), gotoResult := .error "Timeout 30000ms exceeded",
        finalUrl := "http://example.com/", html := .error "n/a",
        anchors := .ok [], catDec := fun _ => none,
        catResp := fun _ => .error (.transient "e"), catJit := fun _ => 0,
        siteDec := fun _ => none,
        siteResp := fun _ => .error (.transient "e"), siteJit := fun _ => 0 }
      "http://example.com" (RateLimitHandler.init 5 60) 0).result.errors
      = some "Timeout 30000ms exceeded" ∧
    (analyze_url
      { newPage := .ok (), gotoResult := .ok (),
        finalUrl := "http://example.com/", html := .ok (.text "hi"),
        anchors := .ok [], catDec := fun _ => none,
        catResp := fun _ => .error (.transient "e"), catJit := fun _ => 0,
        siteDec := fun _ => none,
        siteResp := fun _ => .error (.transient "e"), siteJit := fun _ => 0 }
      "http://example.com" (RateLimitHandler.init 5 60) 0).pageClosed
      = true := by
  decide

/-! ### Claim C10 — empty-keyword categories -/

theorem anyKw_nil (hay : String) : anyKw hay [] = false := rfl

theorem matchSplit_nil_kws : ∀ l : List Node, matchSplit [] l = none := by
  intro l
  induction l with
  | nil => rfl
  | cons n rest ih => simp [matchSplit, anyKw, ih]

theorem containerHit_nil_kws (o : Option Node) : containerHit o [] = none := by
  cases o <;> simp [containerHit, anyKw]

theorem classFallback_nil_kws (flat : List Node) :
    ∀ L, classFallback flat [] L = "" := by
  intro L
  induction L with
  | nil => rfl
  | cons c cs ih => simp [classFallback, containerHit_nil_kws, ih]

theorem linkCandidates_nil_kws {base domain : String} :
    ∀ as, linkCandidates base domain [] as = [] := by
  intro as
  induction as with
  | nil => rfl
  | cons a rest ih =>
    match a with
    | (href, txt) => simp [linkCandidates, anyKw, ih, ite_self]

/-- Each entry `assemble` keeps carries its own computed snippet and
links, at least one of them non-empty. -/
theorem assemble_mem (doc : Node)
    (anchors : Except String (List (String × String))) (base : String) :
    ∀ (cats : List CatEntry) (content : List (String × String × List String)),
      assemble doc anchors base cats = .ok content →
      ∀ e ∈ content,
        e.2.1 = extract_snippet doc e.1 ∧
        e.2.2 = associate_links anchors base e.1 ∧
        (e.2.1 ≠ "" ∨ e.2.2 ≠ []) := by
  intro cats
  induction cats with
  | nil =>
    intro content h e he
    simp only [assemble] at h
    injection h with h
    subst h
    simp at he
  | cons cat rest ih =>
    intro content h e he
    cases hname : cat.lookup "category_name" with
    | none => simp [assemble, hname] at h
    | some name =>
      rw [assemble, hname] at h
      cases hrest : assemble doc anchors base rest with
      | error er => rw [hrest] at h; cases h
      | ok tail =>
        rw [hrest] at h
        injection h with h
        subst h
        by_cases hcond : extract_snippet doc name ≠ "" ∨
            associate_links anchors base name ≠ []
        · rw [if_pos hcond] at he
          rcases List.mem_cons.mp he with rfl | he'
          · exact ⟨rfl, rfl, hcond⟩
          · exact ih tail hrest e he'
        · rw [if_neg hcond] at he
          exact ih tail hrest e he

/-- **C10.** For every category whose keyword set is empty — the
built-in `"Other"` as well as any name absent from the fixed keyword
map — `extract_snippet` returns the empty string and `associate_links`
returns the empty list, so such a category never appears in the content
list of any result. -/
theorem c10_empty_keywords (cat : String) (hk : kwLookup cat = []) :
    (∀ doc, extract_snippet doc cat = "") ∧
    (∀ anchors base, associate_links anchors base cat = []) ∧
    (∀ env url s now, ∀ e ∈ (analyze_url env url s now).result.content,
      e.1 ≠ cat) := by
  have hsnip : ∀ doc, extract_snippet doc cat = "" := by
    intro doc
    simp [extract_snippet, hk, matchSplit_nil_kws, containerHit_nil_kws,
      classFallback_nil_kws]
  have hlinks : ∀ anchors base, associate_links anchors base cat = [] := by
    intro anchors base
    cases anchors with
    | error e => rfl
    | ok as => simp [associate_links, hk, linkCandidates_nil_kws, dedupFirst]
  refine ⟨hsnip, hlinks, ?_⟩
  intro env url s now e he hecat
  have hcontent : ∃ doc anchors base cats,
      assemble doc anchors base cats
        = .ok (analyze_url env url s now).result.content := by
    cases hv : validate_url url with
    | false =>
      simp [analyze_url, hv, errRecord] at he
    | true =>
      cases hnp : env.newPage with
      | error er => simp [analyze_url, hv, hnp, errRecord] at he
      | ok u =>
        cases hg : env.gotoResult with
        | error er => simp [analyze_url, hv, hnp, hg, errRecord] at he
        | ok u2 =>
          cases hh : env.html with
          | error er => simp [analyze_url, hv, hnp, hg, hh, errRecord] at he
          | ok doc =>
            cases hasm : assemble doc env.anchors env.finalUrl
                (get_categories env.catDec env.catResp env.catJit s
                  (now + 2)).value with
            | error er =>
              simp [analyze_url, hv, hnp, hg, hh, hasm, errRecord] at he
            | ok content =>
              refine ⟨doc, env.anchors, env.finalUrl,
                (get_categories env.catDec env.catResp env.catJit s
                  (now + 2)).value, ?_⟩
              rw [hasm]
              simp [analyze_url, hv, hnp, hg, hh, hasm]
  rcases hcontent with ⟨doc, anchors, base, cats, hasm⟩
  rcases assemble_mem doc anchors base cats _ hasm e he with ⟨hs, hl, hcond⟩
  rcases hcond with h | h
  · exact h (by rw [hs, hecat]; exact hsnip doc)
  · exact h (by rw [hl, hecat]; exact hlinks anchors base)

/-- Witness for C10 at the `"Other"` category, a markup that matches
other categories, and a matching anchor list. -/
theorem c10_empty_keywords_witness :
    extract_snippet (Node.elem "article" [] [Node.text "contact support"])
      "Other" = "" ∧
    associate_links (.ok [("http://x.com/contact", "contact us")])
      "http://x.com/" "Other" = [] := by
  have h := c10_empty_keywords "Other" (by decide)
  exact ⟨h.1 _, h.2.1 _ _⟩

/-- `wait_if_needed` never sets the quota flag. -/
theorem wait_if_needed_flag_false {s : RateLimitHandler} (now : ℚ)
    (h : s.quota_exceeded = false) :
    (wait_if_needed s now).2.2.quota_exceeded = false := by
  simp only [wait_if_needed, h]
  split
  · split <;> rfl
  · rfl

theorem get_categories_go_flag_false (dec : String → Option (List CatEntry))
    (resp : ℕ → Except LLMErr String) (jit : ℕ → ℚ) :
    ∀ (fuel attempt : ℕ) (s : RateLimitHandler) (now : ℚ),
      s.quota_exceeded = false →
      (get_categories_go dec resp jit fuel attempt s now).state.quota_exceeded
        = false := by
  intro fuel
  induction fuel with
  | zero => intro attempt s now h; exact h
  | succ n ih =>
    intro attempt s now h
    have h1 : (wait_if_needed s now).2.2.quota_exceeded = false :=
      wait_if_needed_flag_false now h
    cases hr : resp attempt with
    | error e =>
      simp only [get_categories_go, hr]
      exact ih _ _ _ h1
    | ok rtext =>
      simp only [get_categories_go, hr]
      cases hsp : extractSpan '[' ']' (strTrim rtext) with
      | none => simp only [hsp]; exact h1
      | some frag =>
        simp only [hsp]
        cases hdc : dec frag with
        | some cats => simp only [hdc]; exact h1
        | none => simp only [hdc]; exact ih _ _ _ h1

theorem get_categories_go_all_errors (dec : String → Option (List CatEntry))
    (resp : ℕ → Except LLMErr String) (jit : ℕ → ℚ)
    (herr : ∀ k, ∃ e, resp k = .error e) :
    ∀ (fuel attempt : ℕ) (s : RateLimitHandler) (now : ℚ),
      (get_categories_go dec resp jit fuel attempt s now).value = [] ∧
      callCount (get_categories_go dec resp jit fuel attempt s now).events
        = fuel ∧
      backoffCount (get_categories_go dec resp jit fuel attempt s now).events
        = fuel := by
  intro fuel
  induction fuel with
  | zero => intro attempt s now; exact ⟨rfl, rfl, rfl⟩
  | succ n ih =>
    intro attempt s now
    rcases herr attempt with ⟨e, he⟩
    rcases ih (attempt + 1)
      (backoff (wait_if_needed s now).2.2 (jit attempt)).2
      (now + (wait_if_needed s now).1 + (wait_if_needed s now).2.1 +
        (backoff (wait_if_needed s now).2.2 (jit attempt)).1)
      with ⟨hv, hc, hb⟩
    simp only [callCount, backoffCount] at hc hb ⊢
    simp only [get_categories_go, he, List.countP_append, List.countP_cons,
      List.countP_nil]
    refine ⟨hv, ?_, ?_⟩ <;> simp [hc, hb] <;> omega

theorem get_site_type_go_all_errors
    (dec : String → Option (List (String × String)))
    (resp : ℕ → Except LLMErr String) (jit : ℕ → ℚ)
    (herr : ∀ k, ∃ e, resp k = .error e) :
    ∀ (fuel attempt : ℕ) (s : RateLimitHandler) (now : ℚ),
      (get_site_type_go dec resp jit fuel attempt s now).value = "other" ∧
      callCount (get_site_type_go dec resp jit fuel attempt s now).events
        = fuel ∧
      backoffCount (get_site_type_go dec resp jit fuel attempt s now).events
        = fuel := by
  intro fuel
  induction fuel with
  | zero => intro attempt s now; exact ⟨rfl, rfl, rfl⟩
  | succ n ih =>
    intro attempt s now
    rcases herr attempt with ⟨e, he⟩
    rcases ih (attempt + 1)
      (backoff (wait_if_needed s now).2.2 (jit attempt)).2
      (now + (wait_if_needed s now).1 + (wait_if_needed s now).2.1 +
        (backoff (wait_if_needed s now).2.2 (jit attempt)).1)
      with ⟨hv, hc, hb⟩
    simp only [callCount, backoffCount] at hc hb ⊢
    simp only [get_site_type_go, he, List.countP_append, List.countP_cons,
      List.countP_nil]
    refine ⟨hv, ?_, ?_⟩ <;> simp [hc, hb] <;> omega

/-! ### Claim C1 — quota errors and the cooldown (corrected) -/

/-- **C1 counterexample.** A run of `get_categories` in which the
inference collaborator raises a quota error (with an explicit
retry-after hint) on every attempt: the cooldown is never entered — the
quota-exceeded flag stays `false` and no expiry is set — although all
3 attempts are consumed. -/
theorem c1_counterexample :
    (get_categories (fun _ => none) (fun _ => .error (.quota (some 30)))
      (fun _ => 0) (RateLimitHandler.init 5 60) 0).state.quota_exceeded
      = false ∧
    (get_categories (fun _ => none) (fun _ => .error (.quota (some 30)))
      (fun _ => 0) (RateLimitHandler.init 5 60) 0).state.quota_reset_time
      = none ∧
    callCount (get_categories (fun _ => none)
      (fun _ => .error (.quota (some 30)))
      (fun _ => 0) (RateLimitHandler.init 5 60) 0).events = 3 := by
  decide

/-- **C1 amended.** `handle_quota_error` (the throttle's
`enter_cooldown`), *when called*, sets the quota-exceeded flag and the
expiry to now plus the given hint or a default of 3600s, leaving the
window and error count unchanged; but the classification calls never
invoke it: `get_categories` never sets the flag, and a quota error is
handled exactly like a generic transient failure — each one consumes
one of the 3 attempts and triggers a backoff, after which the empty
value is returned with the cooldown still not entered. -/
theorem c1_quota_amended (s : RateLimitHandler) (now : ℚ) :
    (∀ t0 h : ℚ, h ≠ 0 →
      (handle_quota_error s t0 (some h)).quota_exceeded = true ∧
      (handle_quota_error s t0 (some h)).quota_reset_time = some (t0 + h) ∧
      (handle_quota_error s t0 none).quota_reset_time = some (t0 + 3600) ∧
      (handle_quota_error s t0 (some h)).requests_timestamps
        = s.requests_timestamps ∧
      (handle_quota_error s t0 (some h)).error_count = s.error_count) ∧
    (∀ dec resp jit, s.quota_exceeded = false →
      (get_categories dec resp jit s now).state.quota_exceeded = false) ∧
    (∀ dec jit (hints : ℕ → Option ℚ),
      (get_categories dec (fun k => .error (.quota (hints k))) jit s
        now).value = [] ∧
      callCount (get_categories dec (fun k => .error (.quota (hints k))) jit
        s now).events = 3 ∧
      backoffCount (get_categories dec (fun k => .error (.quota (hints k)))
        jit s now).events = 3) := by
  refine ⟨?_, ?_, ?_⟩
  · intro t0 h hne
    exact ⟨rfl, by simp only [handle_quota_error, if_neg hne], rfl, rfl, rfl⟩
  · intro dec resp jit h
    exact get_categories_go_flag_false dec resp jit 3 0 s now h
  · intro dec jit hints
    exact get_categories_go_all_errors dec _ jit
      (fun k => ⟨.quota (hints k), rfl⟩) 3 0 s now

/-- Witness for the amended C1 at the analyzer's throttle state. -/
theorem c1_quota_amended_witness :
    (handle_quota_error (RateLimitHandler.init 5 60) 0
      (some 5)).quota_exceeded = true ∧
    (handle_quota_error (RateLimitHandler.init 5 60) 0
      (some 5)).quota_reset_time = some ((0:ℚ) + 5) ∧
    (get_categories (fun _ => none) (fun _ => .error (.quota none))
      (fun _ => 0) (RateLimitHandler.init 5 60) 0).state.quota_exceeded
      = false ∧
    backoffCount (get_categories (fun _ => none)
      (fun _ => .error (.quota none))
      (fun _ => 0) (RateLimitHandler.init 5 60) 0).events = 3 := by
  have h := c1_quota_amended (RateLimitHandler.init 5 60) 0
  exact ⟨(h.1 0 5 (by decide)).1, (h.1 0 5 (by decide)).2.1,
    h.2.1 _ _ _ rfl, (h.2.2 (fun _ => none) (fun _ => 0) (fun _ => none)).2.2⟩

/-! ### Claim C3 — the retry shape of the classification calls
(corrected) -/

/-- **C3 counterexample.** A response with no bracketed JSON fragment —
a malformed response — makes `get_categories` return the empty list
immediately on the first attempt: one call, no backoff, no retry. -/
theorem c3_counterexample :
    (get_categories (fun _ => none)
      (fun _ => .ok "the model returned no list")
      (fun _ => 0) (RateLimitHandler.init 5 60) 0).value = [] ∧
    callCount (get_categories (fun _ => none)
      (fun _ => .ok "the model returned no list")
      (fun _ => 0) (RateLimitHandler.init 5 60) 0).events = 1 ∧
    backoffCount (get_categories (fun _ => none)
      (fun _ => .ok "the model returned no list")
      (fun _ => 0) (RateLimitHandler.init 5 60) 0).events = 0 := by
  decide

/-- **C3 amended.** In `get_categories` and `get_site_type`, an attempt
whose inference call raises, or whose extracted fragment fails to
decode, invokes the backoff policy and is retried, up to 3 attempts in
total, with the empty-degradation value (`[]` / `"other"`) returned
after all 3 such attempts fail; but an attempt whose response contains
no parsable fragment returns the empty-degradation value immediately —
the request is recorded as a success and no backoff or retry occurs. -/
theorem c3_retry_amended :
    (∀ (s : RateLimitHandler) (now : ℚ) (msgs : ℕ → String) dec jit,
      (get_categories dec (fun k => .error (.transient (msgs k))) jit s
        now).value = [] ∧
      callCount (get_categories dec (fun k => .error (.transient (msgs k)))
        jit s now).events = 3 ∧
      backoffCount (get_categories dec
        (fun k => .error (.transient (msgs k))) jit s now).events = 3) ∧
    (∀ (s : RateLimitHandler) (now : ℚ) (msgs : ℕ → String) dec jit,
      (get_site_type dec (fun k => .error (.transient (msgs k))) jit s
        now).value = "other" ∧
      callCount (get_site_type dec (fun k => .error (.transient (msgs k)))
        jit s now).events = 3 ∧
      backoffCount (get_site_type dec
        (fun k => .error (.transient (msgs k))) jit s now).events = 3) ∧
    (∀ (s : RateLimitHandler) (now : ℚ) dec resp jit r,
      resp 0 = .ok r → extractSpan '[' ']' (strTrim r) = none →
      (get_categories dec resp jit s now).value = [] ∧
      callCount (get_categories dec resp jit s now).events = 1 ∧
      backoffCount (get_categories dec resp jit s now).events = 0) ∧
    (∀ (s : RateLimitHandler) (now : ℚ) dec resp jit r,
      resp 0 = .ok r → extractSpan lbrace rbrace (strTrim r) = none →
      (get_site_type dec resp jit s now).value = "other" ∧
      callCount (get_site_type dec resp jit s now).events = 1 ∧
      backoffCount (get_site_type dec resp jit s now).events = 0) ∧
    (∀ (s : RateLimitHandler) (now : ℚ) dec resp jit r frag r' frag' cats,
      resp 0 = .ok r → extractSpan '[' ']' (strTrim r) = some frag →
      dec frag = none →
      resp 1 = .ok r' → extractSpan '[' ']' (strTrim r') = some frag' →
      dec frag' = some cats →
      (get_categories dec resp jit s now).value = cats ∧
      callCount (get_categories dec resp jit s now).events = 2 ∧
      backoffCount (get_categories dec resp jit s now).events = 1) := by
  refine ⟨?_, ?_, ?_, ?_, ?_⟩
  · intro s now msgs dec jit
    exact get_categories_go_all_errors dec _ jit
      (fun k => ⟨.transient (msgs k), rfl⟩) 3 0 s now
  · intro s now msgs dec jit
    exact get_site_type_go_all_errors dec _ jit
      (fun k => ⟨.transient (msgs k), rfl⟩) 3 0 s now
  · intro s now dec resp jit r h0 hsp
    simp only [get_categories, get_categories_go, h0, hsp, callCount,
      backoffCount, List.countP_append, List.countP_cons, List.countP_nil]
    simp
  · intro s now dec resp jit r h0 hsp
    simp only [get_site_type, get_site_type_go, h0, hsp, callCount,
      backoffCount, List.countP_append, List.countP_cons, List.countP_nil]
    simp
  · intro s now dec resp jit r frag r' frag' cats h0 hsp0 hdc0 h1 hsp1 hdc1
    simp only [get_categories, get_categories_go, h0, hsp0, hdc0, h1, hsp1,
      hdc1, callCount, backoffCount, List.countP_append, List.countP_cons,
      List.countP_nil]
    simp

/-- Witness for the amended C3: an always-raising stub exhausts 3
attempts with 3 backoffs; a fragment-free response returns `[]` after a
single attempt without backoff. -/
theorem c3_retry_amended_witness :
    (get_categories (fun _ => none)
      (fun k => .error (.transient ((fun _ => "boom") k)))
      (fun _ => 0) (RateLimitHandler.init 5 60) 0).value = [] ∧
    backoffCount (get_categories (fun _ => none)
      (fun k => .error (.transient ((fun _ => "boom") k)))
      (fun _ => 0) (RateLimitHandler.init 5 60) 0).events = 3 ∧
    (get_categories (fun _ => none) (fun _ => .ok "plain text")
      (fun _ => 0) (RateLimitHandler.init 5 60) 0).value = [] ∧
    callCount (get_categories (fun _ => none) (fun _ => .ok "plain text")
      (fun _ => 0) (RateLimitHandler.init 5 60) 0).events = 1 := by
  have h := c3_retry_amended
  have h1 := h.1 (RateLimitHandler.init 5 60) 0 (fun _ => "boom")
    (fun _ => none) (fun _ => 0)
  have h3 := h.2.2.1 (RateLimitHandler.init 5 60) 0 (fun _ => none)
    (fun _ => .ok "plain text") (fun _ => 0) "plain text" rfl (by decide)
  exact ⟨h1.1, h1.2.2, h3.1, h3.2.1⟩

/-! ### Claim C4 — sliding-window throttling -/

/-- **C4.** With no active cooldown and a cap of at least one request
per minute, `wait_if_needed` (the throttle's `await_slot`) sleeps `0`
in the cooldown phase, prunes timestamps older than 60s, and — when the
remaining count is at or above the cap — suspends until the oldest
retained timestamp exits the window: a duration strictly greater than 0
and at most 60 seconds (so after `N` recorded requests, an immediate
`(N+1)`-th call suspends for such a duration); below the cap it does
not suspend. -/
theorem c4_sliding_window (s : RateLimitHandler) (now : ℚ)
    (hq : s.quota_exceeded = false)
    (hcap : 1 ≤ s.max_requests_per_minute)
    (hts : ∀ t ∈ s.requests_timestamps, t ≤ now) :
    (wait_if_needed s now).1 = 0 ∧
    (wait_if_needed s now).2.2.requests_timestamps
      = pruneWindow s.requests_timestamps now ∧
    (s.max_requests_per_minute
        ≤ (pruneWindow s.requests_timestamps now).length →
      (wait_if_needed s now).2.1
          = 60 - (now - minTs (pruneWindow s.requests_timestamps now)) ∧
      0 < (wait_if_needed s now).2.1 ∧ (wait_if_needed s now).2.1 ≤ 60) ∧
    ((pruneWindow s.requests_timestamps now).length
        < s.max_requests_per_minute →
      (wait_if_needed s now).2.1 = 0) := by
  have hbounds : s.max_requests_per_minute
        ≤ (pruneWindow s.requests_timestamps now).length →
      0 < 60 - (now - minTs (pruneWindow s.requests_timestamps now)) ∧
      60 - (now - minTs (pruneWindow s.requests_timestamps now)) ≤ 60 := by
    intro hcapped
    have hne : pruneWindow s.requests_timestamps now ≠ [] := by
      intro h
      rw [h] at hcapped
      simp only [List.length_nil, Nat.le_zero] at hcapped
      omega
    have hmem := minTs_mem _ hne
    have h1 := (mem_pruneWindow hmem).2
    have h2 := hts _ (mem_pruneWindow hmem).1
    constructor <;> linarith
  by_cases hc : s.max_requests_per_minute
      ≤ (pruneWindow s.requests_timestamps now).length
  · rcases hro : s.quota_reset_time with _ | r <;>
      simp only [wait_if_needed, hq, hro] <;>
      simp only [pruneWindow] at hc ⊢ <;>
      rw [if_pos hc, if_pos (by simpa [pruneWindow] using (hbounds hc).1)] <;>
      exact ⟨rfl, rfl, fun _ => ⟨rfl, by simpa [pruneWindow] using hbounds hc⟩,
        fun hlt => absurd hc (by omega)⟩
  · rcases hro : s.quota_reset_time with _ | r <;>
      simp only [wait_if_needed, hq, hro] <;>
      simp only [pruneWindow] at hc ⊢ <;>
      rw [if_neg hc] <;>
      exact ⟨rfl, rfl, fun h => absurd h (by simpa [pruneWindow] using hc),
        fun _ => rfl⟩

/-- Witness for C4 at a concrete state: cap 1, one request recorded at
time 0, queried at time 0. -/
theorem c4_sliding_window_witness :
    (wait_if_needed ⟨1, [0], false, none, 60, 0⟩ 0).1 = 0 ∧
    ((1:ℕ) ≤ (pruneWindow [0] 0).length →
      0 < (wait_if_needed ⟨1, [0], false, none, 60, 0⟩ 0).2.1 ∧
      (wait_if_needed ⟨1, [0], false, none, 60, 0⟩ 0).2.1 ≤ 60) := by
  have h := c4_sliding_window ⟨1, [0], false, none, 60, 0⟩ 0 rfl (by decide)
    (by simp)
  exact ⟨h.1, fun hc => (h.2.2.1 hc).2⟩

/-! ### Claim C5 — cooldown behavior -/

/-- **C5.** In cooldown with expiry `r`: before `r`, `wait_if_needed`
suspends for exactly the remaining `r - now` (flag retained); at or
after `r`, it suspends `0` for the cooldown and clears the flag and
expiry; with an empty pruned window and a positive cap the window phase
adds no sleep. `handle_quota_error` (the throttle's `enter_cooldown`)
sets the expiry to now plus the hint, or 3600s without one. -/
theorem c5_cooldown (s : RateLimitHandler) (now r : ℚ)
    (hq : s.quota_exceeded = true) (hr : s.quota_reset_time = some r) :
    (now < r →
      (wait_if_needed s now).1 = r - now ∧
      (wait_if_needed s now).2.2.quota_exceeded = true) ∧
    (¬ now < r →
      (wait_if_needed s now).1 = 0 ∧
      (wait_if_needed s now).2.2.quota_exceeded = false ∧
      (wait_if_needed s now).2.2.quota_reset_time = none) ∧
    (1 ≤ s.max_requests_per_minute →
      pruneWindow s.requests_timestamps now = [] →
      (wait_if_needed s now).2.1 = 0) ∧
    (∀ t0 h : ℚ, h ≠ 0 →
      (handle_quota_error s t0 (some h)).quota_exceeded = true ∧
      (handle_quota_error s t0 (some h)).quota_reset_time = some (t0 + h)) ∧
    (handle_quota_error s now none).quota_reset_time = some (now + 3600) := by
  refine ⟨?_, ?_, ?_, ?_, rfl⟩
  · intro hlt
    simp only [wait_if_needed, hq, hr, if_pos hlt]
    split
    · split <;> exact ⟨rfl, rfl⟩
    · exact ⟨rfl, rfl⟩
  · intro hge
    simp only [wait_if_needed, hq, hr, if_neg hge]
    split
    · split <;> exact ⟨rfl, rfl, rfl⟩
    · exact ⟨rfl, rfl, rfl⟩
  · intro hcap hwin
    have hlen : ¬ s.max_requests_per_minute
        ≤ (pruneWindow s.requests_timestamps now).length := by
      simp only [hwin, List.length_nil]
      omega
    simp only [wait_if_needed, hq, hr]
    split <;> rfl
  · intro t0 h hne
    constructor
    · rfl
    · simp only [handle_quota_error, if_neg hne]

/-- Witness for C5: `enter_cooldown(retry_after=5)` at time 0 — the
state with expiry 5 — queried 1s and 6s later. -/
theorem c5_cooldown_witness :
    (wait_if_needed ⟨5, [], true, some 5, 60, 0⟩ 1).1 = 5 - 1 ∧
    (wait_if_needed ⟨5, [], true, some 5, 60, 0⟩ 1).2.1 = 0 ∧
    (wait_if_needed ⟨5, [], true, some 5, 60, 0⟩ 6).1 = 0 ∧
    (wait_if_needed ⟨5, [], true, some 5, 60, 0⟩ 6).2.2.quota_exceeded
      = false ∧
    (wait_if_needed ⟨5, [], true, some 5, 60, 0⟩ 6).2.2.quota_reset_time
      = none := by
  have h1 := c5_cooldown ⟨5, [], true, some 5, 60, 0⟩ 1 5 rfl rfl
  have h6 := c5_cooldown ⟨5, [], true, some 5, 60, 0⟩ 6 5 rfl rfl
  refine ⟨(h1.1 (by decide)).1, h1.2.2.1 (by decide) rfl, ?_, ?_, ?_⟩
  · exact (h6.2.1 (by decide)).1
  · exact (h6.2.1 (by decide)).2.1
  · exact (h6.2.1 (by decide)).2.2

/-! ### Claim C9 — backoff policy -/

/-- **C9.** The backoff delay for error count `k` with jitter sample
`u ∈ [0, ∞)` is `delay_for k u max_backoff`: it is nonnegative, at most
`max_backoff`, and monotone in `k` for each fixed jitter (hence
non-decreasing in expectation); `backoff` increments the error count
and `record_request` (a successful call) resets it to zero. -/
theorem c9_backoff_policy (s : RateLimitHandler) (u : ℚ)
    (hu : 0 ≤ u) (hmb : 0 ≤ s.max_backoff) :
    (backoff s u).1 = delay_for s.error_count u s.max_backoff ∧
    0 ≤ (backoff s u).1 ∧
    (backoff s u).1 ≤ s.max_backoff ∧
    (backoff s u).2.error_count = s.error_count + 1 ∧
    (∀ k₁ k₂ : ℕ, k₁ ≤ k₂ →
      delay_for k₁ u s.max_backoff ≤ delay_for k₂ u s.max_backoff) ∧
    (∀ (s₂ : RateLimitHandler) (now : ℚ),
      (record_request s₂ now).error_count = 0) := by
  refine ⟨rfl, ?_, min_le_right _ _, rfl, ?_, fun s₂ now => rfl⟩
  · have hp : (0:ℚ) < 2 ^ s.error_count := pow_pos (by norm_num) _
    exact le_min (by linarith) hmb
  · intro k₁ k₂ hk
    have hpow : (2:ℚ) ^ k₁ ≤ 2 ^ k₂ := pow_le_pow_right₀ (by norm_num) hk
    exact min_le_min (by linarith) le_rfl

/-- Witness for C9 at the analyzer's throttle (cap 5, max backoff 60)
with jitter sample 1. -/
theorem c9_backoff_policy_witness :
    0 ≤ (backoff (RateLimitHandler.init 5 60) 1).1 ∧
    (backoff (RateLimitHandler.init 5 60) 1).1
      ≤ (RateLimitHandler.init 5 60).max_backoff ∧
    (backoff (RateLimitHandler.init 5 60) 1).2.error_count
      = (RateLimitHandler.init 5 60).error_count + 1 := by
  have h := c9_backoff_policy (RateLimitHandler.init 5 60) 1 (by decide)
    (by decide)
  exact ⟨h.2.1, h.2.2.1, h.2.2.2.1⟩

end ArticleAnalyzer
